import Mathlib

/-!
Shallow embedding of the PPM (P3/P6) decoder of `main.py` (function
`read_ppm` and helper `_read_header_tokens`), together with proofs about
its header tokenization, validation, sample decoding and rescaling.

The input byte stream is modelled as `List ℕ` (one entry per byte).
Python's `bytes.decode('ascii')`-with-`latin1`-fallback maps each byte to
the character with the same code point, so decoding is the identity on
codes and strings are also modelled as `List ℕ` of code points.

Python `float` values are IEEE-754 binary64.  They are modelled as exact
rationals: every finite double is a rational, and each arithmetic
operation rounds the exact rational result to 53 significant bits with
round-to-nearest, ties-to-even (`roundF64`).  The model covers the whole
normal range (binary exponents up to ±2199); overflow to infinity and
subnormal underflow are not modelled, and no value arising in this
program comes near either.
-/

namespace PPM

/-- Characters with code point < 256 on which Python `str.split()` /
`str.strip()` split: `\t \n \v \f \r`, the separators `\x1c`–`\x1f`,
space, `\x85` (NEL) and `\xa0` (NBSP). -/
def isSpace (c : ℕ) : Bool :=
  c = 32 || (9 ≤ c && c ≤ 13) || (28 ≤ c && c ≤ 31) || c = 133 || c = 160

/-- Model of `f.readline()` on a binary stream: the longest prefix up to and
including the first `\n` (byte 10), and the rest of the stream.  At end
of stream it returns the empty line. -/
def readline : List ℕ → List ℕ × List ℕ
  | [] => ([], [])
  | b :: rest =>
    if b = 10 then ([10], rest)
    else
      let p := readline rest
      (b :: p.1, p.2)

/-- Comment removal, `s.split('#', 1)[0]`: everything
strictly before the first `#` (byte 35).  When `s` has no `#` this is
`s` itself, matching the `if '#' in s` guard in the source. -/
def stripComment (s : List ℕ) : List ℕ := s.takeWhile (fun c => c != 35)

/-- Accumulator loop for `str.split()`: `cur` holds the current token
(reversed). -/
def splitWsAux (cur : List ℕ) : List ℕ → List (List ℕ)
  | [] => if cur.isEmpty then [] else [cur.reverse]
  | c :: rest =>
    if isSpace c then
      if cur.isEmpty then splitWsAux [] rest
      else cur.reverse :: splitWsAux [] rest
    else splitWsAux (c :: cur) rest

/-- Python `s.split()` with no separator: split on runs of whitespace,
producing no empty tokens. -/
def splitWs (s : List ℕ) : List (List ℕ) := splitWsAux [] s

/-- Python `s.strip()`: remove leading and trailing whitespace. -/
def stripEnds (s : List ℕ) : List ℕ :=
  ((s.dropWhile isSpace).reverse.dropWhile isSpace).reverse

/-- Decimal digit test. -/
def isDigit (c : ℕ) : Bool := 48 ≤ c && c ≤ 57

/-- Digits of a Python `int()` literal after the first digit: decimal
digits with single underscores allowed between digits. -/
def digitsVal (acc : ℕ) : List ℕ → Option ℕ
  | [] => some acc
  | 95 :: c :: rest =>
    if isDigit c then digitsVal (acc * 10 + (c - 48)) rest else none
  | c :: rest =>
    if isDigit c then digitsVal (acc * 10 + (c - 48)) rest else none

/-- Unsigned part of a Python `int()` literal: `digit (('_')? digit)*`. -/
def parseUDec : List ℕ → Option ℕ
  | [] => none
  | c :: rest => if isDigit c then digitsVal (c - 48) rest else none

/-- Python `int(token)` on a whitespace-free token: optional sign, then
decimal digits with optional single underscores between digits; `none`
models the `ValueError` raised on any other shape. -/
def intOfToken : List ℕ → Option ℤ
  | 43 :: rest => (parseUDec rest).map (fun n => (n : ℤ))
  | 45 :: rest => (parseUDec rest).map (fun n => -(n : ℤ))
  | s => (parseUDec s).map (fun n => (n : ℤ))

/-- Every way `read_ppm` (and `_read_header_tokens`) can fail.  The
first nine constructors are `raise PPMFormatError(...)` sites of the
source; `pyValueError` and `pyZeroDivisionError` model untagged Python
exceptions escaping from `int()`, `bytes()` range checks, `bytearray`
item assignment, and float division by zero. -/
inductive PPMError where
  | emptyFile : PPMError
  | invalidMagic (magic : List ℕ) : PPMError
  | p3MissingHeader : PPMError
  | p3SampleCountMismatch (actual expected : ℤ) : PPMError
  | helperHeaderIncomplete : PPMError
  | p6HeaderIncomplete : PPMError
  | p6NumericParse : PPMError
  | p6InvalidDimensions : PPMError
  | p6MaxvalOutOfRange : PPMError
  | p6ByteCountMismatch (actual expected : ℕ) : PPMError
  | pyValueError : PPMError
  | pyZeroDivisionError : PPMError
  deriving DecidableEq, Repr

/-- Returns `true` exactly for the errors raised as the tagged `PPMFormatError`
type in the source; `false` for untagged Python exceptions. -/
def PPMError.isFormatError : PPMError → Bool
  | .pyValueError => false
  | .pyZeroDivisionError => false
  | _ => true

/-! ### IEEE-754 binary64 model over exact fractions

Mathlib's `ℚ` operations do not reduce inside the kernel, so the model
uses an explicit (not necessarily reduced) fraction type.  The
denominator is kept strictly positive by every operation below, given
inputs with positive denominators. -/

/-- An exact fraction `num / den`.  Not normalized; all operations keep
`den` positive. -/
structure Frac where
  num : ℤ
  den : ℕ

/-- The rational value of a fraction (for specification lemmas only;
computation never goes through `ℚ`). -/
def Frac.val (q : Frac) : ℚ := (q.num : ℚ) / (q.den : ℚ)

/-- Exact product of fractions. -/
def Frac.mulRaw (a b : Frac) : Frac := ⟨a.num * b.num, a.den * b.den⟩

/-- Exact quotient of fractions (sign moved into the numerator so the
denominator stays positive).  Only ever applied to nonzero divisors. -/
def Frac.divRaw (a b : Frac) : Frac :=
  if b.num < 0 then ⟨-(a.num * (b.den : ℤ)), a.den * b.num.natAbs⟩
  else ⟨a.num * (b.den : ℤ), a.den * b.num.natAbs⟩

/-- Round a fraction to the nearest integer, ties to even.  This is
Python's `round()` applied to a float (whose exact value the fraction
holds): a float at an exact tie rounds to the even neighbour. -/
def rndHalfEven (q : Frac) : ℤ :=
  let f := Int.fdiv q.num (q.den : ℤ)
  let r2 := 2 * (q.num - f * (q.den : ℤ))
  if r2 < (q.den : ℤ) then f
  else if (q.den : ℤ) < r2 then f + 1
  else if f % 2 = 0 then f else f + 1

/-- Normalize a positive fraction into `[1, 2) × 2^e`: returns `(m, e)`
with `q = m * 2^e` and `1 ≤ m < 2`.  The fuel bounds the exponent
search; `2200` covers every IEEE binary64 normal magnitude. -/
def norm64 : ℕ → Frac → Frac × ℤ
  | 0, q => (q, 0)
  | fuel + 1, q =>
    if q.num < (q.den : ℤ) then
      let p := norm64 fuel ⟨2 * q.num, q.den⟩
      (p.1, p.2 - 1)
    else if 2 * (q.den : ℤ) ≤ q.num then
      let p := norm64 fuel ⟨q.num, 2 * q.den⟩
      (p.1, p.2 + 1)
    else (q, 0)

/-- Round an exact fraction to the nearest IEEE-754 binary64 value
(round-to-nearest, ties-to-even), returned as the exact fraction it
denotes.  Covers the normal range; see the file header. -/
def roundF64 (q : Frac) : Frac :=
  if q.num = 0 then ⟨0, 1⟩
  else
    let a : Frac := if q.num < 0 then ⟨-q.num, q.den⟩ else q
    let p := norm64 2200 a
    let m := rndHalfEven ⟨p.1.num * 2 ^ 52, p.1.den⟩
    let mag : Frac :=
      if 52 ≤ p.2 then ⟨m * 2 ^ (p.2 - 52).toNat, 1⟩
      else ⟨m, 2 ^ (52 - p.2).toNat⟩
    if q.num < 0 then ⟨-mag.num, mag.den⟩ else mag

/-- Python `float(n)` for an `int` `n` (exact for `|n| < 2^53`). -/
def pyfloat (n : ℤ) : Frac := roundF64 ⟨n, 1⟩

/-- Python float multiplication: exact product, rounded to binary64. -/
def fmul (x y : Frac) : Frac := roundF64 (x.mulRaw y)

/-- Python float division: exact quotient, rounded to binary64.  The
divisor is never zero where this is used; `read_ppm`'s model raises
`pyZeroDivisionError` before reaching it. -/
def fdiv (x y : Frac) : Frac := roundF64 (x.divRaw y)

/-- Python `round(x)` on a float `x`. -/
def pyround (q : Frac) : ℤ := rndHalfEven q

/-! ### The three rescale expressions of `read_ppm` -/

/-- The P3 path's per-sample rescale, line 115 of `main.py`:
`int(round(v * 255.0 / maxval))` — multiply first, then divide, each
step rounded to binary64. -/
def p3rescale (v maxval : ℤ) : ℤ :=
  pyround (fdiv (fmul (pyfloat v) ⟨255, 1⟩) (pyfloat maxval))

/-- Scale factor `scale = 255.0 / maxval` of lines 180 and 185 of `main.py`. -/
def scaleOf (maxval : ℤ) : Frac := fdiv ⟨255, 1⟩ (pyfloat maxval)

/-- The P6 one-byte path's per-sample rescale, line 181 of `main.py`:
`int(round(b * scale))`. -/
def p6rescale1 (b : ℕ) (maxval : ℤ) : ℤ :=
  pyround (fmul (pyfloat b) (scaleOf maxval))

/-- The P6 two-byte path's per-sample rescale, line 197 of `main.py`:
`int(round(val * scale))` applied to the clamped 16-bit value. -/
def p6rescale16 (val maxval : ℤ) : ℤ :=
  pyround (fmul (pyfloat val) (scaleOf maxval))

/-! ### Header tokenization -/

/-- The inline P6 header loop of `read_ppm` (`main.py` lines 130–143):
read lines, strip comments, split on whitespace, and accumulate tokens
until at least 4 are collected or the stream ends.  Returns the tokens
and the remaining stream.  The fuel only bounds the iteration count;
each iteration consumes at least one byte, so `input.length + 1` is
always sufficient. -/
def headerLoopAux : ℕ → List (List ℕ) → List ℕ → List (List ℕ) × List ℕ
  | 0, tokens, input => (tokens, input)
  | fuel + 1, tokens, input =>
    if 4 ≤ tokens.length then (tokens, input)
    else
      match input with
      | [] => (tokens, [])
      | _ :: _ =>
        let p := readline input
        let parts := splitWs (stripComment p.1)
        headerLoopAux fuel (if parts.isEmpty then tokens else tokens ++ parts) p.2

/-- The loop of the standalone helper `_read_header_tokens` (`main.py`
lines 40–54).  Identical to `headerLoopAux` except that it extends the
token list unconditionally (no `if parts:` guard). -/
def helperLoopAux : ℕ → List (List ℕ) → List ℕ → List (List ℕ) × List ℕ
  | 0, tokens, input => (tokens, input)
  | fuel + 1, tokens, input =>
    if 4 ≤ tokens.length then (tokens, input)
    else
      match input with
      | [] => (tokens, [])
      | _ :: _ =>
        let p := readline input
        helperLoopAux fuel (tokens ++ splitWs (stripComment p.1)) p.2

/-- The header stage of the P6 branch (`main.py` lines 128–145): run
the inline loop from the start of the file; fewer than 4 tokens is a
`PPMFormatError`. -/
def p6Header (input : List ℕ) : Except PPMError (List (List ℕ) × List ℕ) :=
  let r := headerLoopAux (input.length + 1) [] input
  if r.1.length < 4 then .error .p6HeaderIncomplete else .ok (r.1, r.2)

/-- Helper `_read_header_tokens` (`main.py` lines 31–57): returns exactly the
first 4 header tokens and leaves the stream just after the line holding
the 4th token; fewer than 4 tokens is a `PPMFormatError`. -/
def readHeaderTokens (input : List ℕ) : Except PPMError (List (List ℕ) × List ℕ) :=
  let r := helperLoopAux (input.length + 1) [] input
  if r.1.length < 4 then .error .helperHeaderIncomplete
  else .ok (r.1.take 4, r.2)

/-- All lines of a stream, as successive `readline` results.  Fuel as
in `headerLoopAux`. -/
def linesOfAux : ℕ → List ℕ → List (List ℕ)
  | 0, _ => []
  | fuel + 1, input =>
    match input with
    | [] => []
    | _ :: _ =>
      let p := readline input
      p.1 :: linesOfAux fuel p.2

/-- All lines of a stream. -/
def linesOf (input : List ℕ) : List (List ℕ) := linesOfAux (input.length + 1) input

/-- Declarative description of header tokenization, following the
spec's words (§4.1): per line, remove everything from the first `#` to
the end of the line, split on whitespace, and concatenate the tokens of
all lines in order.  Used to state that the imperative loops return the
first four of exactly these tokens. -/
def headerTokensSpec (input : List ℕ) : List (List ℕ) :=
  (linesOf input).flatMap (fun l => splitWs (stripComment l))

/-! ### P3 (ASCII) branch -/

/-- Python `str.splitlines()` boundary characters below 128 (the P3
text is ASCII-decoded with undecodable bytes dropped, so only these can
occur): `\n \v \f \r \x1c \x1d \x1e`, with `\r\n` as a single break. -/
def splitlinesAux (cur : List ℕ) : List ℕ → List (List ℕ)
  | [] => if cur.isEmpty then [] else [cur.reverse]
  | 13 :: 10 :: rest => cur.reverse :: splitlinesAux [] rest
  | c :: rest =>
    if c = 10 || c = 11 || c = 12 || c = 13 || c = 28 || c = 29 || c = 30 then
      cur.reverse :: splitlinesAux [] rest
    else splitlinesAux (c :: cur) rest

/-- Python `str.splitlines()` (restricted to code points < 128). -/
def splitlines (s : List ℕ) : List (List ℕ) := splitlinesAux [] s

/-- Token extraction of the P3 branch (`main.py` lines 92–100):
`f.read().decode('ascii', errors='ignore')` drops bytes ≥ 128; then per
line comments are stripped, whitespace-only lines are dropped, and the
remaining lines are joined and split on whitespace. -/
def p3Tokens (content : List ℕ) : List (List ℕ) :=
  let ascii := content.filter (fun c => decide (c < 128))
  let ls := (splitlines ascii).map stripComment
  let kept := ls.filter (fun l => !(stripEnds l).isEmpty)
  kept.flatMap splitWs

/-- Sample parsing `list(map(int, data_tokens))` (`main.py` line 112); `none` models
the untagged `ValueError` from `int()`. -/
def parseInts : List (List ℕ) → Option (List ℤ)
  | [] => some []
  | t :: ts =>
    match intOfToken t, parseInts ts with
    | some v, some vs => some (v :: vs)
    | _, _ => none

/-- Range check of `bytes(...)`: accepts only values in `0..255`. -/
def allByteRange (l : List ℤ) : Bool := l.all (fun v => decide (0 ≤ v) && decide (v ≤ 255))

/-- The values of a list of in-range samples as bytes. -/
def toBytes (l : List ℤ) : List ℕ := l.map Int.toNat

/-- Conversion-and-scaling stage of the P3 branch (`main.py` lines
113–116): `maxval == 255` passes samples through unchanged, otherwise
each sample is rescaled by `int(round(v * 255.0 / maxval))`; computing
`scale = 255.0 / maxval` with `maxval == 0` raises an untagged
`ZeroDivisionError`, and `bytes(...)` raises an untagged `ValueError`
on any value outside `0..255`. -/
def p3pack (maxval : ℤ) (samples : List ℤ) : Except PPMError (List ℕ) :=
  if maxval = 255 then
    if allByteRange samples then .ok (toBytes samples) else .error .pyValueError
  else if maxval = 0 then .error .pyZeroDivisionError
  else
    let out := samples.map (fun v => p3rescale v maxval)
    if allByteRange out then .ok (toBytes out) else .error .pyValueError

/-- The P3 branch after the magic line (`main.py` lines 90–118).
`content` is the whole remaining stream.  The first three tokens are
width, height, maxval; all remaining tokens are samples; the sample
count must equal `width*height*3` exactly. -/
def p3decode (content : List ℕ) : Except PPMError (ℤ × ℤ × List ℕ) :=
  match p3Tokens content with
  | t0 :: t1 :: t2 :: dataTokens =>
    match intOfToken t0, intOfToken t1, intOfToken t2 with
    | some width, some height, some maxval =>
      let expected : ℤ := width * height * 3
      if (dataTokens.length : ℤ) ≠ expected then
        .error (.p3SampleCountMismatch dataTokens.length expected)
      else
        match parseInts dataTokens with
        | none => .error .pyValueError
        | some samples =>
          match p3pack maxval samples with
          | .error e => .error e
          | .ok data => .ok (width, height, data)
    | _, _, _ => .error .pyValueError
  | _ => .error .p3MissingHeader

/-! ### P6 (binary) branch -/

/-- Parsing of width, height, maxval from the first four header tokens
(`main.py` lines 147–152); any `int()` failure is caught and re-raised
as a `PPMFormatError`.  The caller guarantees at least four tokens; the
final arm is unreachable. -/
def p6parseDims (tokens : List (List ℕ)) : Except PPMError (ℤ × ℤ × ℤ) :=
  match tokens with
  | _ :: t1 :: t2 :: t3 :: _ =>
    match intOfToken t1, intOfToken t2, intOfToken t3 with
    | some w, some h, some m => .ok (w, h, m)
    | _, _, _ => .error .p6NumericParse
  | _ => .error .p6NumericParse

/-- The defensive clamp of the 16-bit path (`main.py` lines 193–196):
`if val < 0: val = 0` then `elif val > maxval: val = maxval`. -/
def clamp16 (val maxval : ℤ) : ℤ :=
  if val < 0 then 0 else if maxval < val then maxval else val

/-- Rescale-and-pack of the one-byte-per-sample path (`main.py` lines
176–181): `maxval == 255` passes the buffer through unchanged,
otherwise each byte is rescaled by `int(round(b * scale))`; the
`bytes([...])` constructor raises an untagged `ValueError` on any
result outside `0..255`. -/
def p6pack1 (maxval : ℤ) (buf : List ℕ) : Except PPMError (List ℕ) :=
  if maxval = 255 then .ok buf
  else
    let out := buf.map (fun b => p6rescale1 b maxval)
    if allByteRange out then .ok (toBytes out) else .error .pyValueError

/-- The two-byte decode loop (`main.py` lines 186–198): each big-endian
pair gives `val = (hi << 8) | lo`, clamped into `[0, maxval]` and
rescaled by `int(round(val * scale))`; a `bytearray` item assignment
raises an untagged `ValueError` outside `0..255`.  The buffer length is
always even here; a trailing odd byte would simply not be visited by
`range(0, total_bytes, 2)`'s body reading `i+1`. -/
def decode16 (maxval : ℤ) (scale : Frac) : List ℕ → Except PPMError (List ℕ)
  | [] => .ok []
  | [_] => .ok []
  | hi :: lo :: rest =>
    let val : ℤ := (Nat.lor (Nat.shiftLeft hi 8) lo : ℕ)
    let out := pyround (fmul (pyfloat (clamp16 val maxval)) scale)
    if 0 ≤ out ∧ out ≤ 255 then
      match decode16 maxval scale rest with
      | .error e => .error e
      | .ok l => .ok (out.toNat :: l)
    else .error .pyValueError

/-- Rescale-and-pack of the two-byte-per-sample path (`main.py` lines
184–198). -/
def p6pack2 (maxval : ℤ) (buf : List ℕ) : Except PPMError (List ℕ) :=
  decode16 maxval (scaleOf maxval) buf

/-- The P6 branch after the header tokens are parsed (`main.py` lines
153–200): validate dimensions and maxval, select 1 or 2 bytes per
sample by `maxval < 256`, read exactly `width*height*3*bps` bytes (the
block-read loop of lines 164–173 accumulates `min(block, remaining)`
until done or EOF, i.e. exactly the first `total_bytes` bytes of the
remaining stream), fail if fewer arrived, then rescale and pack. -/
def p6body (width height maxval : ℤ) (rest : List ℕ) : Except PPMError (ℤ × ℤ × List ℕ) :=
  if width ≤ 0 ∨ height ≤ 0 then .error .p6InvalidDimensions
  else if ¬(1 ≤ maxval ∧ maxval ≤ 65535) then .error .p6MaxvalOutOfRange
  else
    let bps : ℕ := if maxval < 256 then 1 else 2
    let totalBytes := width.toNat * height.toNat * 3 * bps
    let buf := rest.take totalBytes
    if buf.length ≠ totalBytes then .error (.p6ByteCountMismatch buf.length totalBytes)
    else if bps = 1 then
      match p6pack1 maxval buf with
      | .error e => .error e
      | .ok data => .ok (width, height, data)
    else
      match p6pack2 maxval buf with
      | .error e => .error e
      | .ok data => .ok (width, height, data)

/-- The whole P6 branch (`main.py` lines 122–200): seek back to the
start of the file, re-tokenize the header, parse and validate the
dimensions, then decode the pixel bytes. -/
def p6decode (input : List ℕ) : Except PPMError (ℤ × ℤ × List ℕ) :=
  match p6Header input with
  | .error e => .error e
  | .ok (tokens, rest) =>
    match p6parseDims tokens with
    | .error e => .error e
    | .ok (w, h, m) => p6body w h m rest

/-- Function `read_ppm` (`main.py` lines 70–200), modelled up to the pixel
buffer: the returned triple is `(width, height, data)`, the exact
arguments passed to the external collaborator call
`Image.frombytes('RGB', (width, height), data)`.  An empty file fails;
the whole first line, stripped, must be exactly `P3` or `P6`. -/
def read_ppm (input : List ℕ) : Except PPMError (ℤ × ℤ × List ℕ) :=
  match input with
  | [] => .error .emptyFile
  | _ :: _ =>
    let p := readline input
    let magic := stripEnds p.1
    if magic = [80, 51] then p3decode p.2
    else if magic = [80, 54] then p6decode input
    else .error (.invalidMagic magic)

/-- Byte list of an ASCII string, for readable concrete inputs. -/
def bytesOfAscii (s : String) : List ℕ := s.data.map (fun c => c.toNat)

instance {ε α : Type} [DecidableEq ε] [DecidableEq α] : DecidableEq (Except ε α) := fun a b =>
  match a, b with
  | .ok x, .ok y =>
    if h : x = y then .isTrue (by simp [h]) else .isFalse (by simp [h])
  | .error x, .error y =>
    if h : x = y then .isTrue (by simp [h]) else .isFalse (by simp [h])
  | .ok _, .error _ => .isFalse (by simp)
  | .error _, .ok _ => .isFalse (by simp)

/-! ## Theorems -/

/-- C9: the concrete input `P3\n2 1 255\n255 0 0 0 255 0\n` decodes to
the 2×1 RGB buffer `[255,0,0, 0,255,0]`, and the concrete input
`P3\n2 1 100\n100 0 0 0 100 0\n` decodes to the same buffer via a full
rescale from maxval 100. -/
theorem c9_concrete_scenarios :
    read_ppm (bytesOfAscii "P3\n2 1 255\n255 0 0 0 255 0\n") =
      .ok (2, 1, [255, 0, 0, 0, 255, 0]) ∧
    read_ppm (bytesOfAscii "P3\n2 1 100\n100 0 0 0 100 0\n") =
      .ok (2, 1, [255, 0, 0, 0, 255, 0]) := by
  constructor <;> decide

/-- C2, counterexample: at maxval 100 and sample 50 the P3 path outputs
128 (`round(50*255.0/100)`, an exact 127.5 rounded half-to-even) but
the P6 one-byte path outputs 127 (`round(50*(255.0/100))`, where
`255.0/100` rounds below 2.55), so the three paths do not apply one
rounding rule yielding `round(127.5)` uniformly — the claim fails at
its own example input. -/
theorem c2_rounding_cx :
    read_ppm (bytesOfAscii "P3\n1 1 100\n50 0 0\n") = .ok (1, 1, [128, 0, 0]) ∧
    read_ppm (bytesOfAscii "P6\n1 1 100\n" ++ [50, 0, 0]) = .ok (1, 1, [127, 0, 0]) ∧
    rndHalfEven ⟨255, 2⟩ = 128 ∧ (127 : ℕ) ≠ 128 := by
  refine ⟨by decide, by decide, by decide, by decide⟩

/-- C2, amended: all three paths round with Python `round` (ties to
even on the exact float value); the two P6 paths use the identical
expression `round(v * (255.0/maxval))`, while the P3 path computes
`round(v * 255.0 / maxval)`; the two expressions differ, e.g. at
maxval 100 and v 50 the P3 path gives `round(127.5) = 128` while the
P6 paths give 127. -/
theorem c2_rounding_amended :
    (∀ (b : ℕ) (m : ℤ), p6rescale1 b m = p6rescale16 (b : ℤ) m) ∧
    p3rescale 50 100 = 128 ∧ p6rescale1 50 100 = 127 ∧ rndHalfEven ⟨255, 2⟩ = 128 := by
  refine ⟨fun b m => rfl, by decide, by decide, by decide⟩

/-- C3, counterexample: a P6 file with maxval 364 and big-endian sample
0x00B6 = 182 decodes that sample to 127, but `round(182*255/364)` is an
exact tie `round(127.5) = 128` under round-half-to-even (and 128 under
round-half-up as well): the code's rescale is not
`round(value * 255 / maxval)`. -/
theorem c3_rescale_tie_cx :
    read_ppm (bytesOfAscii "P6\n1 1 364\n" ++ [0, 182, 0, 0, 0, 0]) =
      .ok (1, 1, [127, 0, 0]) ∧
    rndHalfEven ⟨46410, 364⟩ = 128 ∧ (127 : ℕ) ≠ 128 := by
  refine ⟨by decide, by decide, by decide⟩

/-- C5, counterexample: the P3 path performs no maxval validation: a P3
file with maxval 70000 (outside `1..=65535`) decodes successfully
instead of failing with a MaxvalOutOfRange error. -/
theorem c5_p3_no_validation_cx :
    read_ppm (bytesOfAscii "P3\n1 1 70000\n70000 0 0\n") = .ok (1, 1, [255, 0, 0]) := by
  decide

/-- C6, counterexample: in the P3 path a sample token that is not a
valid integer escapes as an untagged `ValueError` from `int()`, not as
a tagged format error. -/
theorem c6_untagged_p3_cx :
    read_ppm (bytesOfAscii "P3\n1 1 255\nx 0 0\n") = .error .pyValueError ∧
    PPMError.pyValueError.isFormatError = false := by
  refine ⟨by decide, by decide⟩

/-- C1, counterexample: a P6 file with one byte more pixel data than
`width*height*3*bps` decodes successfully, silently ignoring the
surplus trailing byte, instead of failing with a count mismatch. -/
theorem c1_excess_bytes_cx :
    read_ppm (bytesOfAscii "P6\n1 1 255\n" ++ [1, 2, 3, 4]) = .ok (1, 1, [1, 2, 3]) := by
  decide

/-- C4: with maxval 255 no rescale is applied: the P3 pack stage
returns the parsed samples unchanged (given they are in byte range, as
`bytes()` demands), the P6 one-byte pack stage returns the read buffer
unchanged, and two end-to-end decodes reproduce their raw input
samples exactly. -/
theorem c4_maxval255_identity :
    (∀ samples, allByteRange samples = true → p3pack 255 samples = .ok (toBytes samples)) ∧
    (∀ buf, p6pack1 255 buf = .ok buf) ∧
    read_ppm (bytesOfAscii "P3\n1 1 255\n10 20 30\n") = .ok (1, 1, [10, 20, 30]) ∧
    read_ppm (bytesOfAscii "P6\n1 1 255\n" ++ [7, 8, 9]) = .ok (1, 1, [7, 8, 9]) := by
  refine ⟨fun s hs => ?_, fun b => ?_, by decide, by decide⟩
  · unfold p3pack
    rw [if_pos rfl, if_pos hs]
  · unfold p6pack1
    rw [if_pos rfl]

/-- C4, witness: the identity conjuncts applied at concrete inputs. -/
theorem c4_maxval255_identity_witness :
    p3pack 255 [5, 250] = .ok (toBytes [5, 250]) ∧ p6pack1 255 [9] = .ok [9] :=
  ⟨c4_maxval255_identity.1 [5, 250] (by decide), c4_maxval255_identity.2.1 [9]⟩

/-- C5, amended: in the P6 path, a parsed width ≤ 0 or height ≤ 0 fails
with the InvalidDimensions format error and a parsed maxval outside
`1..=65535` fails with the MaxvalOutOfRange format error, in both cases
before any pixel data is consumed (the result is the same whatever
bytes follow the header); the P3 path performs no such validation. -/
theorem c5_p6_validation_amended :
    (∀ (w h m : ℤ) (rest : List ℕ), w ≤ 0 ∨ h ≤ 0 →
        p6body w h m rest = .error .p6InvalidDimensions) ∧
    (∀ (w h m : ℤ) (rest : List ℕ), 0 < w → 0 < h → ¬(1 ≤ m ∧ m ≤ 65535) →
        p6body w h m rest = .error .p6MaxvalOutOfRange) ∧
    PPMError.p6InvalidDimensions.isFormatError = true ∧
    PPMError.p6MaxvalOutOfRange.isFormatError = true ∧
    read_ppm (bytesOfAscii "P6\n0 1 255\n") = .error .p6InvalidDimensions ∧
    read_ppm (bytesOfAscii "P6\n1 1 70000\n") = .error .p6MaxvalOutOfRange := by
  refine ⟨fun w h m rest hwh => ?_, fun w h m rest hw hh hm => ?_,
    by decide, by decide, by decide, by decide⟩
  · unfold p6body
    rw [if_pos hwh]
  · unfold p6body
    rw [if_neg (by omega), if_pos hm]

/-- C5, witness: the P6 validation conjuncts applied at concrete
arguments (with pixel bytes present that are never consumed). -/
theorem c5_p6_validation_witness :
    p6body 0 5 255 [1, 2, 3] = .error .p6InvalidDimensions ∧
    p6body 5 5 0 [1, 2, 3] = .error .p6MaxvalOutOfRange :=
  ⟨c5_p6_validation_amended.1 0 5 255 [1, 2, 3] (by omega),
   c5_p6_validation_amended.2.1 5 5 0 [1, 2, 3] (by omega) (by omega) (by omega)⟩

/-- C6, amended: in the P6 path a non-integer width, height or maxval
token fails with the tagged NumericParseError format error, but in the
P3 path a non-integer header or sample token escapes as an untagged
`ValueError`, so not every failure is surfaced as the tagged format
error type. -/
theorem c6_error_tagging_amended :
    (∀ t0 t1 t2 t3 (restT : List (List ℕ)),
        intOfToken t1 = none ∨ intOfToken t2 = none ∨ intOfToken t3 = none →
        p6parseDims (t0 :: t1 :: t2 :: t3 :: restT) = .error .p6NumericParse) ∧
    PPMError.p6NumericParse.isFormatError = true ∧
    read_ppm (bytesOfAscii "P6\nx 1 255\n") = .error .p6NumericParse ∧
    read_ppm (bytesOfAscii "P3\nx 1 255\n0 0 0\n") = .error .pyValueError ∧
    read_ppm (bytesOfAscii "P3\n1 1 100\n1 y 1\n") = .error .pyValueError := by
  refine ⟨fun t0 t1 t2 t3 restT h => ?_, by decide, by decide, by decide, by decide⟩
  rcases h with h | h | h
  · simp [p6parseDims, h]
  · cases h1 : intOfToken t1 <;> simp [p6parseDims, h1, h]
  · cases h1 : intOfToken t1 <;> cases h2 : intOfToken t2 <;> simp [p6parseDims, h1, h2, h]

/-- C6, witness: the tagged P6 numeric-parse conjunct applied to a
concrete token list whose width token is `x`. -/
theorem c6_error_tagging_witness :
    p6parseDims [[80, 54], [120], [49], [50, 53, 53]] = .error .p6NumericParse :=
  c6_error_tagging_amended.1 [80, 54] [120] [49] [50, 53, 53] [] (Or.inl (by decide))

/-- C3, amended: `maxval < 256` selects 1 byte per sample and
`256 ≤ maxval ≤ 65535` selects 2 bytes per sample (visible in the
required pixel byte count `width*height*3*bps`, whose shortfall fails
with a count mismatch); each 2-byte sample is decoded big-endian as
`(byte0 << 8) | byte1` and clamped into `[0, maxval]` (corrected, not
rejected), then rescaled by the Python-float expression
`round(value * (255.0/maxval))` — which deviates from exact
`round(value*255/maxval)` at ties, e.g. maxval 364, value 182; with
maxval 65535 the big-endian samples 0xFFFF and 0x0000 decode to 255
and 0. -/
theorem c3_p6_decode_amended :
    (∀ val m : ℤ, 0 ≤ m → clamp16 val m = max 0 (min val m)) ∧
    (∀ (w h m : ℤ) (rest : List ℕ), 0 < w → 0 < h → 1 ≤ m → m ≤ 65535 →
        rest.length < w.toNat * h.toNat * 3 * (if m < 256 then 1 else 2) →
        p6body w h m rest = .error
          (.p6ByteCountMismatch rest.length
            (w.toNat * h.toNat * 3 * (if m < 256 then 1 else 2)))) ∧
    read_ppm (bytesOfAscii "P6\n2 1 65535\n" ++
        [255, 255, 0, 0, 0, 0, 0, 0, 255, 255, 0, 0]) =
      .ok (2, 1, [255, 0, 0, 0, 255, 0]) ∧
    read_ppm (bytesOfAscii "P6\n1 1 300\n" ++ [128, 0, 0, 0, 0, 0]) =
      .ok (1, 1, [255, 0, 0]) := by
  refine ⟨fun val m hm => ?_, fun w h m rest hw hh hm1 hm2 hlen => ?_, by decide, by decide⟩
  · unfold clamp16
    split_ifs <;> omega
  · unfold p6body
    rw [if_neg (by omega), if_neg (by omega)]
    have hlen' : (rest.take (w.toNat * h.toNat * 3 * (if m < 256 then 1 else 2))).length =
        rest.length := by
      simp only [List.length_take]
      omega
    rw [if_pos (by rw [hlen']; omega), hlen']

/-- C3, witness: the clamp conjunct at a concrete out-of-range value,
and the byte-count conjunct at maxval 256 with only 1-byte-per-sample
data present (3 bytes instead of the required 6), which must fail. -/
theorem c3_p6_decode_witness :
    clamp16 400 300 = max 0 (min 400 300) ∧
    p6body 1 1 256 [0, 0, 0] = .error (.p6ByteCountMismatch 3 6) := by
  refine ⟨c3_p6_decode_amended.1 400 300 (by omega), ?_⟩
  have h := c3_p6_decode_amended.2.1 1 1 256 [0, 0, 0]
    (by omega) (by omega) (by omega) (by omega) (by decide)
  simpa using h

/-! ### Header-loop lemmas -/

/-- Reading a line from a nonempty stream consumes at least one byte. -/
theorem readline_snd_length : ∀ input : List ℕ, input ≠ [] →
    (readline input).2.length < input.length := by
  intro input
  induction input with
  | nil => intro h; exact absurd rfl h
  | cons b rest ih =>
    intro _
    unfold readline
    by_cases hb : b = 10
    · rw [if_pos hb]
      simp
    · rw [if_neg hb]
      show (readline rest).2.length < rest.length + 1
      by_cases hr : rest = []
      · subst hr
        simp [readline]
      · exact lt_trans (ih hr) (Nat.lt_succ_self _)

/-- Appending possibly-empty parts: the `if parts:` guard of the inline
loop is equivalent to unconditional extension. -/
theorem appendIfNonempty (t parts : List (List ℕ)) :
    (if parts.isEmpty then t else t ++ parts) = t ++ parts := by
  cases parts <;> simp

/-- The helper loop and the inline P6 loop compute the same result. -/
theorem helperLoopAux_eq_headerLoopAux : ∀ (fuel : ℕ) (t : List (List ℕ)) (input : List ℕ),
    helperLoopAux fuel t input = headerLoopAux fuel t input := by
  intro fuel
  induction fuel with
  | zero => intro t input; rfl
  | succ f ih =>
    intro t input
    unfold helperLoopAux headerLoopAux
    by_cases h4 : 4 ≤ t.length
    · rw [if_pos h4, if_pos h4]
    · rw [if_neg h4, if_neg h4]
      cases input with
      | nil => rfl
      | cons b rest =>
        show helperLoopAux f _ _ = headerLoopAux f _ _
        rw [appendIfNonempty, ih]

/-- The loop result does not depend on the fuel, provided the fuel
exceeds the stream length (each iteration consumes at least a byte). -/
theorem headerLoopAux_congr_fuel : ∀ (f g : ℕ) (t : List (List ℕ)) (input : List ℕ),
    input.length < f → input.length < g →
    headerLoopAux f t input = headerLoopAux g t input := by
  intro f
  induction f with
  | zero => intro g t input hf; omega
  | succ f ih =>
    intro g t input hf hg
    cases g with
    | zero => omega
    | succ g =>
      unfold headerLoopAux
      by_cases h4 : 4 ≤ t.length
      · rw [if_pos h4, if_pos h4]
      · rw [if_neg h4, if_neg h4]
        cases input with
        | nil => rfl
        | cons b rest =>
          show headerLoopAux f _ _ = headerLoopAux g _ _
          have hcons : (b :: rest : List ℕ) ≠ [] := by simp
          have hlt := readline_snd_length (b :: rest) hcons
          exact ih g _ _ (by omega) (by omega)

/-- Lemma: `linesOfAux` does not depend on the fuel above the stream length. -/
theorem linesOfAux_congr_fuel : ∀ (f g : ℕ) (input : List ℕ),
    input.length < f → input.length < g → linesOfAux f input = linesOfAux g input := by
  intro f
  induction f with
  | zero => intro g input hf; omega
  | succ f ih =>
    intro g input hf hg
    cases g with
    | zero => omega
    | succ g =>
      unfold linesOfAux
      cases input with
      | nil => rfl
      | cons b rest =>
        show _ :: linesOfAux f _ = _ :: linesOfAux g _
        have hcons : (b :: rest : List ℕ) ≠ [] := by simp
        have hlt := readline_snd_length (b :: rest) hcons
        rw [ih g _ (by omega) (by omega)]

/-- Unfolding `linesOf` one line at a time. -/
theorem linesOf_eq_cons (input : List ℕ) (h : input ≠ []) :
    linesOf input = (readline input).1 :: linesOf (readline input).2 := by
  cases input with
  | nil => exact absurd rfl h
  | cons b rest =>
    have hstep : linesOf (b :: rest) =
        (readline (b :: rest)).1 :: linesOfAux ((b :: rest).length) (readline (b :: rest)).2 :=
      rfl
    rw [hstep]
    unfold linesOf
    congr 1
    have hcons : (b :: rest : List ℕ) ≠ [] := by simp
    have hlt := readline_snd_length (b :: rest) hcons
    exact linesOfAux_congr_fuel _ _ _ (by omega) (by omega)

/-- Unfolding `headerTokensSpec` one line at a time. -/
theorem headerTokensSpec_eq_cons (input : List ℕ) (h : input ≠ []) :
    headerTokensSpec input =
      splitWs (stripComment (readline input).1) ++ headerTokensSpec (readline input).2 := by
  unfold headerTokensSpec
  rw [linesOf_eq_cons input h, List.flatMap_cons]

/-- The loop's token list agrees, up to its first four entries, with
the declarative tokenization of the whole stream. -/
theorem headerLoopAux_take4 : ∀ (f : ℕ) (t : List (List ℕ)) (input : List ℕ),
    input.length < f →
    ((headerLoopAux f t input).1).take 4 = (t ++ headerTokensSpec input).take 4 := by
  intro f
  induction f with
  | zero => intro t input hf; omega
  | succ f ih =>
    intro t input hf
    unfold headerLoopAux
    by_cases h4 : 4 ≤ t.length
    · rw [if_pos h4, List.take_append_of_le_length h4]
    · rw [if_neg h4]
      cases input with
      | nil => simp [headerTokensSpec, linesOf, linesOfAux]
      | cons b rest =>
        show ((headerLoopAux f _ _).1).take 4 = _
        rw [appendIfNonempty]
        have hcons : (b :: rest : List ℕ) ≠ [] := by simp
        have hlt := readline_snd_length (b :: rest) hcons
        rw [ih _ _ (by omega), headerTokensSpec_eq_cons _ hcons, List.append_assoc]

set_option maxHeartbeats 1600000 in
/-- C7: the header tokenizer strips `#`-to-end-of-line comments on each
line, splits on whitespace, and accumulates tokens across lines until
at least 4 are collected; whenever the comment-stripped
whitespace-tokenization of the stream holds at least four tokens, the
loop succeeds and its first four tokens are exactly the first four of
that flat tokenization, regardless of how they are distributed over
lines; consequently a P6 file whose header line is
`100 100 255 # comment` parses identically to the same file without
the comment, whatever pixel data follows. -/
theorem c7_header_tokenizer :
    (∀ input : List ℕ, 4 ≤ (headerTokensSpec input).length →
        ∃ toks rest, p6Header input = .ok (toks, rest) ∧
          toks.take 4 = (headerTokensSpec input).take 4) ∧
    (∀ data : List ℕ,
        read_ppm (bytesOfAscii "P6\n100 100 255 # comment\n" ++ data) =
        read_ppm (bytesOfAscii "P6\n100 100 255\n" ++ data)) := by
  constructor
  · intro input h4
    have htake : ((headerLoopAux (input.length + 1) [] input).1).take 4 =
        (headerTokensSpec input).take 4 := by
      simpa using headerLoopAux_take4 (input.length + 1) [] input (by omega)
    have hlen : ¬((headerLoopAux (input.length + 1) [] input).1.length < 4) := by
      have hcong := congrArg List.length htake
      rw [List.length_take, List.length_take] at hcong
      omega
    refine ⟨(headerLoopAux (input.length + 1) [] input).1,
      (headerLoopAux (input.length + 1) [] input).2, ?_, htake⟩
    unfold p6Header
    rw [if_neg hlen]
  · intro data
    show p6body 100 100 255 data = p6body 100 100 255 data
    rfl

/-- C7, witness: the tokenizer conjunct applied to a concrete stream
(the four header tokens spread over three lines). -/
theorem c7_header_tokenizer_witness :
    ∃ toks rest, p6Header (bytesOfAscii "P6\n2 1\n255\n") = .ok (toks, rest) ∧
      toks.take 4 = (headerTokensSpec (bytesOfAscii "P6\n2 1\n255\n")).take 4 :=
  c7_header_tokenizer.1 (bytesOfAscii "P6\n2 1\n255\n") (by decide)

/-- C10: the standalone helper `_read_header_tokens` and the inline
header loop of the P6 branch are equivalent: on every byte stream they
either both succeed — the helper returning exactly the first four of
the inline loop's tokens and both leaving the stream at the same
position — or both fail with a format error. -/
theorem c10_helper_inline_equiv :
    ∀ input : List ℕ,
      (∃ toks rest, p6Header input = .ok (toks, rest) ∧
          readHeaderTokens input = .ok (toks.take 4, rest)) ∨
      (p6Header input = .error .p6HeaderIncomplete ∧
        readHeaderTokens input = .error .helperHeaderIncomplete ∧
        PPMError.p6HeaderIncomplete.isFormatError = true ∧
        PPMError.helperHeaderIncomplete.isFormatError = true) := by
  intro input
  unfold p6Header readHeaderTokens
  rw [helperLoopAux_eq_headerLoopAux]
  by_cases h : (headerLoopAux (input.length + 1) [] input).1.length < 4
  · right
    rw [if_pos h, if_pos h]
    exact ⟨rfl, rfl, rfl, rfl⟩
  · left
    rw [if_neg h, if_neg h]
    exact ⟨_, _, rfl, rfl⟩


/-! ### Error classification lemmas -/

/-- The P3 pack stage only fails with untagged Python exceptions. -/
theorem p3pack_error_eq (m : ℤ) (s : List ℤ) (e : PPMError) (h : p3pack m s = .error e) :
    e = .pyValueError ∨ e = .pyZeroDivisionError := by
  simp only [p3pack] at h
  split_ifs at h <;> injection h with h' <;>
    first
      | exact Or.inl h'.symm
      | exact Or.inr h'.symm

/-- The P6 one-byte pack stage only fails with an untagged ValueError. -/
theorem p6pack1_error_eq (m : ℤ) (b : List ℕ) (e : PPMError) (h : p6pack1 m b = .error e) :
    e = .pyValueError := by
  simp only [p6pack1] at h
  split_ifs at h <;> injection h with h' <;> exact h'.symm

/-- The two-byte decode loop only fails with an untagged ValueError. -/
theorem decode16_error_eq : ∀ (n : ℕ) (l : List ℕ) (m : ℤ) (sc : Frac) (e : PPMError),
    l.length ≤ n → decode16 m sc l = .error e → e = .pyValueError := by
  intro n
  induction n with
  | zero =>
    intro l m sc e hl h
    cases l with
    | nil => simp [decode16] at h
    | cons a t => simp at hl
  | succ k ih =>
    intro l m sc e hl h
    cases l with
    | nil => simp [decode16] at h
    | cons hi t =>
      cases t with
      | nil => simp [decode16] at h
      | cons lo rest =>
        simp only [decode16] at h
        split_ifs at h
        · split at h
          · rename_i e' heq
            injection h with h'
            subst h'
            exact ih rest m sc e' (by simp at hl; omega) heq
          · simp at h
        · injection h with h'
          exact h'.symm

/-- The P6 header stage can only fail as HeaderIncomplete. -/
theorem p6Header_error_eq (input : List ℕ) (e : PPMError) (h : p6Header input = .error e) :
    e = .p6HeaderIncomplete := by
  simp only [p6Header] at h
  split_ifs at h <;> injection h with h' <;> exact h'.symm

/-- The P6 dimension parse can only fail as NumericParse. -/
theorem p6parseDims_error_eq (tokens : List (List ℕ)) (e : PPMError)
    (h : p6parseDims tokens = .error e) : e = .p6NumericParse := by
  simp only [p6parseDims] at h
  split at h <;> (try split at h) <;> simp_all

/-- The P3 branch never raises the invalid-magic error. -/
theorem p3decode_ne_invalidMagic : ∀ (c mg : List ℕ),
    p3decode c ≠ .error (.invalidMagic mg) := by
  intro c mg h
  simp only [p3decode] at h
  split at h <;> try simp at h
  split at h <;> try simp at h
  split_ifs at h <;> try simp at h
  split at h <;> try simp at h
  split at h
  · rename_i e heq
    injection h with h'
    rcases p3pack_error_eq _ _ _ heq with he | he <;> simp [he] at h'
  · simp at h

/-- The P6 pixel stage never raises the invalid-magic error. -/
theorem p6body_ne_invalidMagic : ∀ (w hgt m : ℤ) (rest mg : List ℕ),
    p6body w hgt m rest ≠ .error (.invalidMagic mg) := by
  intro w hgt m rest mg h
  simp only [p6body] at h
  split_ifs at h <;> try simp_all
  all_goals
    split at h
    · rename_i e heq
      injection h with h'
      first
        | (have hcls := p6pack1_error_eq _ _ _ heq
           simp [hcls] at h')
        | (have heq' : decode16 m (scaleOf m) _ = .error e := heq
           have hcls := decode16_error_eq _ _ _ _ _ (le_refl _) heq'
           simp [hcls] at h')
    · simp at h

/-- The P6 branch never raises the invalid-magic error. -/
theorem p6decode_ne_invalidMagic : ∀ (input mg : List ℕ),
    p6decode input ≠ .error (.invalidMagic mg) := by
  intro input mg h
  simp only [p6decode] at h
  split at h
  · rename_i e heq
    injection h with h'
    have := p6Header_error_eq _ _ heq
    simp [this] at h'
  · split at h
    · rename_i e heq
      injection h with h'
      have := p6parseDims_error_eq _ _ heq
      simp [this] at h'
    · exact p6body_ne_invalidMagic _ _ _ _ _ h

/-- C8: the accepted magic values are exactly the case-sensitive
strings `P3` (`[80,51]`) and `P6` (`[80,54]`) obtained by stripping
surrounding whitespace from the first line: any other stripped first
line fails with a format error carrying exactly that offending value,
an invalid-magic error is only ever raised with that value, and the
concrete magic `P2` fails with the invalid-magic error naming `P2`. -/
theorem c8_magic_validation :
    (∀ input : List ℕ, input ≠ [] →
        stripEnds (readline input).1 ≠ [80, 51] →
        stripEnds (readline input).1 ≠ [80, 54] →
        read_ppm input = .error (.invalidMagic (stripEnds (readline input).1))) ∧
    (∀ input mg : List ℕ, read_ppm input = .error (.invalidMagic mg) →
        mg = stripEnds (readline input).1 ∧ mg ≠ [80, 51] ∧ mg ≠ [80, 54]) ∧
    read_ppm (bytesOfAscii "P2\n1 1 255\n0 0 0\n") = .error (.invalidMagic [80, 50]) ∧
    (PPMError.invalidMagic [80, 50]).isFormatError = true := by
  refine ⟨fun input hne h1 h2 => ?_, fun input mg hEq => ?_, by decide, by decide⟩
  · cases input with
    | nil => exact absurd rfl hne
    | cons b rest =>
      simp only [read_ppm]
      rw [if_neg h1, if_neg h2]
  · cases input with
    | nil => simp [read_ppm] at hEq
    | cons b rest =>
      simp only [read_ppm] at hEq
      split_ifs at hEq with g1 g2
      · exact absurd hEq (p3decode_ne_invalidMagic _ _)
      · exact absurd hEq (p6decode_ne_invalidMagic _ _)
      · simp only [Except.error.injEq, PPMError.invalidMagic.injEq] at hEq
        exact ⟨hEq.symm, hEq ▸ g1, hEq ▸ g2⟩

/-- C8, witness: the rejection conjunct applied to the concrete stream
`P5\n`, whose stripped first line is neither `P3` nor `P6`. -/
theorem c8_magic_validation_witness :
    read_ppm [80, 53, 10] = .error (.invalidMagic [80, 53]) :=
  c8_magic_validation.1 [80, 53, 10] (by decide) (by decide) (by decide)

/-! ### Output length lemmas -/

/-- Parsing with `parseInts` preserves the token count. -/
theorem parseInts_some_length : ∀ (ts : List (List ℕ)) (vs : List ℤ),
    parseInts ts = some vs → vs.length = ts.length := by
  intro ts
  induction ts with
  | nil =>
    intro vs h
    simp only [parseInts, Option.some.injEq] at h
    simp [← h]
  | cons t ts ih =>
    intro vs h
    simp only [parseInts] at h
    cases h1 : intOfToken t with
    | none => rw [h1] at h; simp at h
    | some v =>
      cases h2 : parseInts ts with
      | none => rw [h1, h2] at h; simp at h
      | some vs' =>
        rw [h1, h2] at h
        simp only [Option.some.injEq] at h
        subst h
        simp [ih vs' h2]

/-- The P3 pack stage preserves the sample count. -/
theorem p3pack_ok_length (m : ℤ) (s : List ℤ) (d : List ℕ) (h : p3pack m s = .ok d) :
    d.length = s.length := by
  simp only [p3pack] at h
  split_ifs at h <;> injection h with h' <;> simp [← h', toBytes]

/-- The P6 one-byte pack stage preserves the byte count. -/
theorem p6pack1_ok_length (m : ℤ) (b : List ℕ) (d : List ℕ) (h : p6pack1 m b = .ok d) :
    d.length = b.length := by
  simp only [p6pack1] at h
  split_ifs at h <;> injection h with h' <;> simp [← h', toBytes]

/-- The two-byte decode halves the byte count. -/
theorem decode16_ok_length : ∀ (n : ℕ) (l : List ℕ) (m : ℤ) (sc : Frac) (d : List ℕ),
    l.length ≤ n → decode16 m sc l = .ok d → d.length = l.length / 2 := by
  intro n
  induction n with
  | zero =>
    intro l m sc d hl h
    cases l with
    | nil => simp only [decode16, Except.ok.injEq] at h; simp [← h]
    | cons a t => simp at hl
  | succ k ih =>
    intro l m sc d hl h
    cases l with
    | nil => simp only [decode16, Except.ok.injEq] at h; simp [← h]
    | cons hi t =>
      cases t with
      | nil => simp only [decode16, Except.ok.injEq] at h; simp [← h]
      | cons lo rest =>
        simp only [decode16] at h
        split_ifs at h
        split at h
        · simp at h
        · rename_i l' heq
          injection h with h'
          have := ih rest m sc l' (by simp at hl; omega) heq
          simp only [← h', List.length_cons, this]
          omega

/-- A successful P6 pixel stage echoes the dimensions and its buffer
has exactly `width * height * 3` bytes. -/
theorem p6body_ok_spec : ∀ (w hgt m : ℤ) (rest : List ℕ) (w' h' : ℤ) (d : List ℕ),
    p6body w hgt m rest = .ok (w', h', d) →
    w' = w ∧ h' = hgt ∧ (d.length : ℤ) = w * hgt * 3 := by
  intro w hgt m rest w' h' d hEq
  simp only [p6body] at hEq
  by_cases hv1 : w ≤ 0 ∨ hgt ≤ 0
  · rw [if_pos hv1] at hEq
    exact absurd hEq (by simp)
  rw [if_neg hv1] at hEq
  by_cases hv2 : ¬(1 ≤ m ∧ m ≤ 65535)
  · rw [if_pos hv2] at hEq
    exact absurd hEq (by simp)
  rw [if_neg hv2] at hEq
  push_neg at hv1
  by_cases hbps : m < 256
  · rw [if_pos hbps] at hEq
    by_cases hcnt : (rest.take (w.toNat * hgt.toNat * 3 * 1)).length ≠ w.toNat * hgt.toNat * 3 * 1
    · rw [if_pos hcnt] at hEq
      exact absurd hEq (by simp)
    rw [if_neg hcnt, if_pos rfl] at hEq
    push_neg at hcnt
    cases heq : p6pack1 m (rest.take (w.toNat * hgt.toNat * 3 * 1)) with
    | error e =>
      rw [heq] at hEq
      exact absurd hEq (by simp)
    | ok data' =>
      rw [heq] at hEq
      simp only [Except.ok.injEq, Prod.mk.injEq] at hEq
      obtain ⟨hweq, hheq, hdeq⟩ := hEq
      have hlen1 := p6pack1_ok_length _ _ _ heq
      have hwc : (w.toNat : ℤ) = w := Int.toNat_of_nonneg (by omega)
      have hhc : (hgt.toNat : ℤ) = hgt := Int.toNat_of_nonneg (by omega)
      refine ⟨hweq.symm, hheq.symm, ?_⟩
      subst hdeq
      have hdl : data'.length = w.toNat * hgt.toNat * 3 := by omega
      rw [hdl]
      push_cast
      rw [hwc, hhc]
  · rw [if_neg hbps] at hEq
    by_cases hcnt : (rest.take (w.toNat * hgt.toNat * 3 * 2)).length ≠ w.toNat * hgt.toNat * 3 * 2
    · rw [if_pos hcnt] at hEq
      exact absurd hEq (by simp)
    rw [if_neg hcnt, if_neg (by norm_num)] at hEq
    push_neg at hcnt
    cases heq : p6pack2 m (rest.take (w.toNat * hgt.toNat * 3 * 2)) with
    | error e =>
      rw [heq] at hEq
      exact absurd hEq (by simp)
    | ok data' =>
      rw [heq] at hEq
      simp only [Except.ok.injEq, Prod.mk.injEq] at hEq
      obtain ⟨hweq, hheq, hdeq⟩ := hEq
      have heq' : decode16 m (scaleOf m) (rest.take (w.toNat * hgt.toNat * 3 * 2)) =
          .ok data' := heq
      have hlen2 := decode16_ok_length _ _ _ _ _ (le_refl _) heq'
      have hwc : (w.toNat : ℤ) = w := Int.toNat_of_nonneg (by omega)
      have hhc : (hgt.toNat : ℤ) = hgt := Int.toNat_of_nonneg (by omega)
      refine ⟨hweq.symm, hheq.symm, ?_⟩
      subst hdeq
      have hdl : data'.length = w.toNat * hgt.toNat * 3 := by omega
      rw [hdl]
      push_cast
      rw [hwc, hhc]

/-- A successful P3 branch yields exactly `width * height * 3` bytes. -/
theorem p3decode_ok_spec : ∀ (c : List ℕ) (w h : ℤ) (d : List ℕ),
    p3decode c = .ok (w, h, d) → (d.length : ℤ) = w * h * 3 := by
  intro c w h d hEq
  simp only [p3decode] at hEq
  split at hEq <;> try simp at hEq
  split at hEq <;> try simp at hEq
  split_ifs at hEq with hcount <;> try simp at hEq
  split at hEq <;> try simp at hEq
  split at hEq <;> try simp at hEq
  rename_i samples0 heqP xexc data' heqPack
  obtain ⟨hw, hh, hd⟩ := hEq
  have h1 := parseInts_some_length _ _ heqP
  have h2 := p3pack_ok_length _ _ _ heqPack
  subst hd hw hh
  omega

/-- A successful P6 branch yields exactly `width * height * 3` bytes. -/
theorem p6decode_ok_spec : ∀ (input : List ℕ) (w h : ℤ) (d : List ℕ),
    p6decode input = .ok (w, h, d) → (d.length : ℤ) = w * h * 3 := by
  intro input w h d hEq
  simp only [p6decode] at hEq
  split at hEq <;> try simp at hEq
  split at hEq <;> try simp at hEq
  obtain ⟨hw, hh, hlen⟩ := p6body_ok_spec _ _ _ _ _ _ _ hEq
  subst hw hh
  exact hlen

/-- C1, amended: every successful decode returns a pixel buffer of
exactly `width*height*3` bytes; a P3 sample-token shortfall or excess
fails with the tagged count-mismatch error reporting both counts, and a
P6 pixel-byte shortfall (spec scenario 4: short by one byte) fails with
the tagged count-mismatch error reporting both counts; but surplus
trailing bytes in a P6 file are ignored (the reader stops at the
required count), so only the shortfall direction is an error for P6. -/
theorem c1_exact_size_amended :
    (∀ (input : List ℕ) (w h : ℤ) (data : List ℕ),
        read_ppm input = .ok (w, h, data) → (data.length : ℤ) = w * h * 3) ∧
    read_ppm (bytesOfAscii "P3\n1 1 255\n1 2\n") = .error (.p3SampleCountMismatch 2 3) ∧
    read_ppm (bytesOfAscii "P3\n1 1 255\n1 2 3 4\n") = .error (.p3SampleCountMismatch 4 3) ∧
    read_ppm (bytesOfAscii "P6\n1 1 255\n" ++ [5, 5]) = .error (.p6ByteCountMismatch 2 3) ∧
    (PPMError.p3SampleCountMismatch 2 3).isFormatError = true ∧
    (PPMError.p6ByteCountMismatch 2 3).isFormatError = true := by
  refine ⟨fun input w h data hEq => ?_, by decide, by decide, by decide, by decide, by decide⟩
  cases input with
  | nil => simp [read_ppm] at hEq
  | cons b rest =>
    simp only [read_ppm] at hEq
    split_ifs at hEq
    · exact p3decode_ok_spec _ _ _ _ hEq
    · exact p6decode_ok_spec _ _ _ _ hEq

/-- C1, witness: the exact-size conjunct applied to a successful
concrete decode. -/
theorem c1_exact_size_witness : (([7, 8, 9] : List ℕ).length : ℤ) = 1 * 1 * 3 :=
  c1_exact_size_amended.1 (bytesOfAscii "P3\n1 1 255\n7 8 9\n") 1 1 [7, 8, 9] (by decide)

end PPM
